import Mathlib

/-!
Verification development for the sequence-handling module of the repository
(secomo/sequences.py).  The module converts DNA sequence records to one-hot
numeric tensors and splits a loaded record set into train and test files.

Modelling conventions:
* a raw sequence record is a `List Char` (the characters of the record);
* a numpy 4-dimensional array is a `Tensor4`: its shape, its dtype tag and a
  total entry function; the code only ever stores the exact values 0.0 and
  1.0, both exactly representable in 32-bit floats, so entries are `Nat`;
* a Python dict lookup that can raise KeyError is an `Option`-valued map;
* errors raised by the encoding path are the inductive `EncErr`:
  `encodingError` is the lookup failure raised inside the encoding loop, and
  `shapeMismatch` is the error numpy concatenate raises when the non-batch
  dimensions of its inputs disagree;
* file input and the random permutation are external effects: the loaded
  record list and the permutation produced by np.random.permutation are
  passed as explicit parameters.
-/

/-- Letters of the Biopython IUPAC unambiguous-DNA alphabet, the alphabet
attached to every record the loader produces; its length is the row count of
each one-hot tensor. -/
def unambiguousDnaLetters : List Char := ['G', 'A', 'T', 'C']

/-- The module-level dict `L` mapping nucleotide characters to column
indices.  A key absent from the dict is a lookup failure (KeyError), modelled
as `none`. -/
def L (c : Char) : Option Nat :=
  if c = 'A' then some 0
  else if c = 'a' then some 0
  else if c = 'C' then some 1
  else if c = 'c' then some 1
  else if c = 'G' then some 2
  else if c = 'g' then some 2
  else if c = 'T' then some 3
  else if c = 't' then some 3
  else none

/-- Numpy dtype tags appearing in the source. -/
inductive NpDType where
  | float32
  | float64
deriving DecidableEq, Repr

/-- A 4-dimensional numpy array: shape, dtype and a total entry function
(entries outside the shape are irrelevant and read as whatever the function
returns there). -/
structure Tensor4 where
  shape0 : Nat
  shape1 : Nat
  shape2 : Nat
  shape3 : Nat
  dtype : NpDType
  entry : Nat → Nat → Nat → Nat → Nat

/-- Model of np.zeros with a 4-tuple shape and a dtype. -/
def npZeros4 (a b c d : Nat) (dt : NpDType) : Tensor4 :=
  Tensor4.mk a b c d dt (fun _ _ _ _ => 0)

/-- Model of the element assignment result[i, j, k, l] = v. -/
def Tensor4.set (t : Tensor4) (i j k l v : Nat) : Tensor4 :=
  Tensor4.mk t.shape0 t.shape1 t.shape2 t.shape3 t.dtype
    (fun a b c d => if a = i ∧ b = j ∧ c = k ∧ d = l then v else t.entry a b c d)

/-- Errors of the encoding path.  `encodingError` models the KeyError raised
by the dict lookup on a character outside the alphabet; `shapeMismatch`
models the error numpy concatenate raises on mismatched non-batch
dimensions. -/
inductive EncErr where
  | encodingError
  | shapeMismatch
deriving DecidableEq, Repr

/-- The loop body of the function with one underscore then getOneHotSeq: walk the
characters, at position i write a 1 at row L[seq[i]], column i; a lookup
failure aborts the whole call. -/
def getOneHotSeqGo : List Char → Nat → Tensor4 → Except EncErr Tensor4
  | [], _, t => .ok t
  | c :: cs, i, t =>
    match L c with
    | none => .error .encodingError
    | some r => getOneHotSeqGo cs (i + 1) (t.set 0 0 r i 1)

/-- Model of the one-hot encoder of a single record: allocate
np.zeros((1, 1, m, n), float32) with m the alphabet size and n the record
length, then run the filling loop. -/
def getOneHotSeq (seq : List Char) : Except EncErr Tensor4 :=
  getOneHotSeqGo seq 0 (npZeros4 1 1 unambiguousDnaLetters.length seq.length NpDType.float32)

/-- True when the raw characters of a record match the case-insensitive
regular expression searching for the letter N. -/
def containsN (s : List Char) : Bool := s.any (fun c => c == 'N' || c == 'n')

/-- Model of readSeqsFromFasta: the FASTA parser is external, so the parsed
records arrive as the argument; the function keeps, in file order, exactly
the records whose characters never match the ambiguity letter N. -/
def readSeqsFromFasta (fileRecords : List (List Char)) : List (List Char) :=
  fileRecords.filter (fun s => !(containsN s))

/-- Python truthiness of the optional num_top_regions argument: None and 0
are falsy, every other number is truthy. -/
def numTopTruthy : Option Nat → Bool
  | none => false
  | some n => n != 0

/-- Python int() applied to a rational: truncation toward zero. -/
def pyInt (q : ℚ) : Int := if 0 ≤ q then ⌊q⌋ else -⌊-q⌋

/-- Segments of a character list split at every dot, matching the Python
str.split on a dot: the empty string yields one empty segment, and every dot
starts a new segment. -/
def splitOnDot : List Char → List (List Char)
  | [] => [[]]
  | c :: cs =>
    match splitOnDot cs with
    | [] => if c = '.' then [[], []] else [[c]]
    | g :: gs => if c = '.' then [] :: g :: gs else (c :: g) :: gs

/-- Joining segments with a dot, matching the Python str.join on a dot. -/
def joinDot : List (List Char) → List Char
  | [] => []
  | [g] => g
  | g :: g2 :: gs => g ++ '.' :: joinDot (g2 :: gs)

/-- Name of the train output file: the input path split on dots, the last
segment dropped, rejoined with dots, then the train suffix appended. -/
def trainFilename (filename : List Char) : List Char :=
  joinDot (splitOnDot filename).dropLast ++ ("_train.fa").data

/-- Name of the test output file, built like the train name. -/
def testFilename (filename : List Char) : List Char :=
  joinDot (splitOnDot filename).dropLast ++ ("_test.fa").data

/-- Everything splitTrainingTest produces apart from the file writes: the
two index slices, the two output paths, and the two record lists written to
those paths. -/
structure SplitOutput where
  itest : List Nat
  itrain : List Nat
  trfilename : List Char
  tefilename : List Char
  trseq : List (List Char)
  teseq : List (List Char)
deriving DecidableEq, Repr

/-- The record list splitTrainingTest works on: the loaded records, cut to
the first num_top_regions when that argument is truthy. -/
def splitSeqs (fileRecords : List (List Char)) (num_top_regions : Option Nat) :
    List (List Char) :=
  let seqs0 := readSeqsFromFasta fileRecords
  if numTopTruthy num_top_regions then seqs0.take (num_top_regions.getD 0) else seqs0

/-- The index order splitTrainingTest uses: the permutation handed back by
np.random.permutation when randomize is true, the identity order
otherwise. -/
def splitPermut (seqsLen : Nat) (randomize : Bool) (randPerm : List Nat) : List Nat :=
  if randomize then randPerm else List.range seqsLen

/-- The cut point int(len(seqs) * train_test_ratio). -/
def splitNtest (seqsLen : Nat) (train_test_ratio : ℚ) : Nat :=
  (pyInt ((seqsLen : ℚ) * train_test_ratio)).toNat

/-- Model of splitTrainingTest.  File reading and the random permutation are
external: fileRecords is the parsed content of the input file and randPerm
is the permutation np.random.permutation returned (used only when randomize
is true).  Everything else follows the source line by line: load and filter,
truncate when num_top_regions is truthy, pick the index order, cut at
int(len(seqs) * ratio), and build the two record lists. -/
def splitTrainingTest (filename : List Char) (fileRecords : List (List Char))
    (train_test_ratio : ℚ) (num_top_regions : Option Nat) (randomize : Bool)
    (randPerm : List Nat) : SplitOutput :=
  let seqs := splitSeqs fileRecords num_top_regions
  let idx_permut := splitPermut seqs.length randomize randPerm
  let ntest := splitNtest seqs.length train_test_ratio
  let itest := idx_permut.take ntest
  let itrain := idx_permut.drop ntest
  let trseq := itrain.map (fun i => seqs.getD i [])
  let teseq := itest.map (fun i => seqs.getD i [])
  SplitOutput.mk itest itrain (trainFilename filename) (testFilename filename) trseq teseq

/-- Entry function of the concatenation of a tensor list along axis 0: find
the constituent the batch index falls into. -/
def concatEntry : List Tensor4 → Nat → Nat → Nat → Nat → Nat
  | [], _, _, _, _ => 0
  | t :: ts, i, j, k, l =>
    if i < t.shape0 then t.entry i j k l else concatEntry ts (i - t.shape0) j k l

/-- Model of np.concatenate along axis 0: an empty input errors, and all
non-batch dimensions must agree with those of the first tensor, otherwise
the shape-mismatch error is raised. -/
def npConcatAxis0 (ts : List Tensor4) : Except EncErr Tensor4 :=
  match ts with
  | [] => .error .shapeMismatch
  | t :: rest =>
    if rest.all (fun u => u.shape1 == t.shape1 && u.shape2 == t.shape2 && u.shape3 == t.shape3)
    then .ok (Tensor4.mk ((t :: rest).foldl (fun a u => a + u.shape0) 0)
      t.shape1 t.shape2 t.shape3 t.dtype (concatEntry (t :: rest)))
    else .error .shapeMismatch

/-- The encoding loop of seqToOneHot: encode every record in order; the
first lookup failure aborts. -/
def encodeAll : List (List Char) → Except EncErr (List Tensor4)
  | [] => .ok []
  | s :: ss =>
    match getOneHotSeq s with
    | .error e => .error e
    | .ok t =>
      match encodeAll ss with
      | .error e => .error e
      | .ok ts => .ok (t :: ts)

/-- Model of seqToOneHot: encode every record, then concatenate the one-hot
tensors along the batch axis. -/
def seqToOneHot (seqs : List (List Char)) : Except EncErr Tensor4 :=
  match encodeAll seqs with
  | .error e => .error e
  | .ok ts => npConcatAxis0 ts

/-- Decoding map described by the round-trip property of the specification:
an alphabet row index is mapped back to its uppercase nucleotide. -/
def revL (k : Nat) : Char :=
  if k = 0 then 'A' else if k = 1 then 'C' else if k = 2 then 'G' else 'T'

/-- Index of the first occurrence of the maximum, the np.argmax convention;
the accumulator holds the best index and best value so far and the current
index. -/
def argmaxGo : List Nat → Nat → Nat → Nat → Nat
  | [], bi, _, _ => bi
  | x :: xs, bi, bv, i => if bv < x then argmaxGo xs i x (i + 1) else argmaxGo xs bi bv (i + 1)

/-- Model of np.argmax on a list of naturals. -/
def argmaxList (xs : List Nat) : Nat := argmaxGo xs 0 0 0

/-- The alphabet-axis column of a one-hot tensor at a given position. -/
def columnVals (t : Tensor4) (j : Nat) : List Nat :=
  (List.range t.shape2).map (fun r => t.entry 0 0 r j)

/-- Decoding procedure described by the round-trip property of the
specification: argmax along the alphabet axis at every position, each index
mapped back to its nucleotide. -/
def decodeOneHot (t : Tensor4) : List Char :=
  (List.range t.shape3).map (fun j => revL (argmaxList (columnVals t j)))

/-! Helper lemmas about the alphabet map. -/

lemma L_some_lt (c : Char) (k : Nat) (h : L c = some k) : k < 4 := by
  unfold L at h
  split_ifs at h <;> (try simp_all) <;> omega

lemma L_eq_none_of_not_mem (c : Char)
    (h : c ∉ (['A', 'a', 'C', 'c', 'G', 'g', 'T', 't'] : List Char)) : L c = none := by
  simp only [List.mem_cons, List.not_mem_nil, or_false, not_or] at h
  obtain ⟨h1, h2, h3, h4, h5, h6, h7, h8⟩ := h
  unfold L
  split_ifs <;> simp_all

lemma L_isSome_of_mem (c : Char)
    (h : c ∈ (['A', 'a', 'C', 'c', 'G', 'g', 'T', 't'] : List Char)) : (L c).isSome := by
  fin_cases h <;> decide

/-! Helper lemmas about the encoding loop. -/

lemma Tensor4.set_shape0 (t : Tensor4) (i j k l v : Nat) : (t.set i j k l v).shape0 = t.shape0 := rfl

lemma Tensor4.set_shape1 (t : Tensor4) (i j k l v : Nat) : (t.set i j k l v).shape1 = t.shape1 := rfl

lemma Tensor4.set_shape2 (t : Tensor4) (i j k l v : Nat) : (t.set i j k l v).shape2 = t.shape2 := rfl

lemma Tensor4.set_shape3 (t : Tensor4) (i j k l v : Nat) : (t.set i j k l v).shape3 = t.shape3 := rfl

lemma Tensor4.set_dtype (t : Tensor4) (i j k l v : Nat) : (t.set i j k l v).dtype = t.dtype := rfl

lemma getOneHotSeqGo_ok (chars : List Char) :
    (∀ c ∈ chars, (L c).isSome) →
    ∀ (i : Nat) (t : Tensor4), ∃ t2, getOneHotSeqGo chars i t = .ok t2 := by
  induction chars with
  | nil => exact fun _ i t => ⟨t, rfl⟩
  | cons c cs ih =>
    intro h i t
    have hc : (L c).isSome := h c (by simp)
    obtain ⟨r, hr⟩ := Option.isSome_iff_exists.mp hc
    obtain ⟨t2, ht2⟩ := ih (fun x hx => h x (by simp [hx])) (i + 1) (t.set 0 0 r i 1)
    exact ⟨t2, by simp [getOneHotSeqGo, hr, ht2]⟩

lemma getOneHotSeqGo_spec (chars : List Char) :
    ∀ (i : Nat) (t t2 : Tensor4), getOneHotSeqGo chars i t = .ok t2 →
      t2.shape0 = t.shape0 ∧ t2.shape1 = t.shape1 ∧ t2.shape2 = t.shape2 ∧
      t2.shape3 = t.shape3 ∧ t2.dtype = t.dtype ∧
      ∀ a b r j, t2.entry a b r j =
        if a = 0 ∧ b = 0 ∧ i ≤ j ∧ j < i + chars.length ∧ L (chars.getD (j - i) 'N') = some r
        then 1 else t.entry a b r j := by
  induction chars with
  | nil =>
    intro i t t2 h
    simp only [getOneHotSeqGo, Except.ok.injEq] at h
    subst h
    refine ⟨rfl, rfl, rfl, rfl, rfl, ?_⟩
    intro a b r j
    rw [if_neg]
    rintro ⟨-, -, h1, h2, -⟩
    simp only [List.length_nil, Nat.add_zero] at h2
    omega
  | cons c cs ih =>
    intro i t t2 h
    rw [getOneHotSeqGo] at h
    cases hc : L c with
    | none => rw [hc] at h; exact absurd h (by simp)
    | some r0 =>
      rw [hc] at h
      obtain ⟨hs0, hs1, hs2, hs3, hdt, hent⟩ := ih (i + 1) (t.set 0 0 r0 i 1) t2 h
      refine ⟨hs0, hs1, hs2, hs3, hdt, ?_⟩
      intro a b r j
      rw [hent a b r j]
      have hshift : i + 1 ≤ j → (c :: cs).getD (j - i) 'N' = cs.getD (j - (i + 1)) 'N' := by
        intro hij
        have hji : j - i = (j - (i + 1)) + 1 := by omega
        rw [hji, List.getD_cons_succ]
      simp only [Tensor4.set]
      split_ifs with h1 h2 h3 h4 h5
      · rfl
      · obtain ⟨ha, hb, hij, hlt, hL⟩ := h1
        refine absurd ⟨ha, hb, by omega, ?_, ?_⟩ h2
        · simp only [List.length_cons]
          omega
        · rw [hshift hij]
          exact hL
      · rfl
      · obtain ⟨ha, hb, hr, hj⟩ := h3
        refine absurd ⟨ha, hb, by omega, ?_, ?_⟩ h4
        · simp only [List.length_cons]
          omega
        · have hji : j - i = 0 := by omega
          rw [hji, List.getD_cons_zero, hc, hr]
      · exfalso
        obtain ⟨ha, hb, hij, hlt, hL⟩ := h5
        by_cases hj : j = i
        · refine h3 ⟨ha, hb, ?_, hj⟩
          have hji : j - i = 0 := by omega
          rw [hji, List.getD_cons_zero, hc] at hL
          injection hL
          omega
        · refine h1 ⟨ha, hb, by omega, ?_, ?_⟩
          · simp only [List.length_cons] at hlt
            omega
          · rw [← hshift (by omega)]
            exact hL
      · rfl

lemma getOneHotSeq_spec (seq : List Char) (h : ∀ c ∈ seq, (L c).isSome) :
    ∃ t, getOneHotSeq seq = .ok t ∧
      t.shape0 = 1 ∧ t.shape1 = 1 ∧ t.shape2 = 4 ∧ t.shape3 = seq.length ∧
      t.dtype = NpDType.float32 ∧
      ∀ r j, j < seq.length →
        t.entry 0 0 r j = if L (seq.getD j 'N') = some r then 1 else 0 := by
  obtain ⟨t, ht⟩ := getOneHotSeqGo_ok seq h 0 (npZeros4 1 1 unambiguousDnaLetters.length seq.length NpDType.float32)
  obtain ⟨hs0, hs1, hs2, hs3, hdt, hent⟩ := getOneHotSeqGo_spec seq 0 _ t ht
  refine ⟨t, ht, hs0, hs1, hs2, hs3, hdt, ?_⟩
  intro r j hj
  rw [hent 0 0 r j]
  by_cases hx : L (seq.getD j 'N') = some r
  · rw [if_pos ⟨rfl, rfl, Nat.zero_le j, by omega, by simpa using hx⟩, if_pos hx]
  · rw [if_neg (by rintro ⟨-, -, -, -, hy⟩; simp only [Nat.sub_zero] at hy; exact hx hy), if_neg hx]
    rfl

lemma getOneHotSeq_col (seq : List Char) (h : ∀ c ∈ seq, (L c).isSome)
    (t : Tensor4) (ht : getOneHotSeq seq = .ok t) (j : Nat) (hj : j < seq.length) :
    ∃ k, L (seq.getD j 'N') = some k ∧ k < 4 ∧
      ∀ r, t.entry 0 0 r j = if k = r then 1 else 0 := by
  obtain ⟨t2, ht2, hs0, hs1, hs2, hs3, hdt, hent⟩ := getOneHotSeq_spec seq h
  have htt : t2 = t := by
    have hx := ht2.symm.trans ht
    simpa using hx
  subst htt
  have hmem : seq.getD j 'N' ∈ seq := by
    rw [List.getD_eq_getElem seq 'N' hj]
    exact List.getElem_mem hj
  obtain ⟨k, hk⟩ := Option.isSome_iff_exists.mp (h _ hmem)
  refine ⟨k, hk, L_some_lt _ _ hk, ?_⟩
  intro r
  rw [hent r j hj, hk]
  by_cases hr : k = r
  · rw [if_pos (by rw [hr]), if_pos hr]
  · rw [if_neg (fun hx => hr (by injection hx)), if_neg hr]

/-- C1: for every record composed solely of case-insensitive A, C, G, T, the
one-hot encoding succeeds with a tensor of shape (1, 1, 4, n) and dtype
float32 in which, at every position, the row the alphabet map assigns to the
character of that position holds 1 and every other row of that column holds
0, so the sum over the alphabet axis at every position is 1. -/
theorem encode_one_hot_correct (seq : List Char) (h : ∀ c ∈ seq, (L c).isSome) :
    ∃ t, getOneHotSeq seq = .ok t ∧
      t.shape0 = 1 ∧ t.shape1 = 1 ∧ t.shape2 = 4 ∧ t.shape3 = seq.length ∧
      t.dtype = NpDType.float32 ∧
      (∀ j, j < seq.length → ∀ r,
        t.entry 0 0 r j = if L (seq.getD j 'N') = some r then 1 else 0) ∧
      (∀ j, j < seq.length → ((List.range 4).map (fun r => t.entry 0 0 r j)).sum = 1) := by
  obtain ⟨t, ht, hs0, hs1, hs2, hs3, hdt, hent⟩ := getOneHotSeq_spec seq h
  refine ⟨t, ht, hs0, hs1, hs2, hs3, hdt, fun j hj r => hent r j hj, ?_⟩
  intro j hj
  obtain ⟨k, hk, hk4, hval⟩ := getOneHotSeq_col seq h t ht j hj
  have hrange : (List.range 4) = [0, 1, 2, 3] := by decide
  rw [hrange]
  simp only [List.map_cons, List.map_nil, List.sum_cons, List.sum_nil, hval]
  interval_cases k <;> simp

theorem encode_one_hot_correct_witness :
    (∀ c ∈ (['A', 'c', 'G', 'T'] : List Char), (L c).isSome) ∧
    (∃ t, getOneHotSeq ['A', 'c', 'G', 'T'] = .ok t ∧
      t.shape0 = 1 ∧ t.shape1 = 1 ∧ t.shape2 = 4 ∧
      t.shape3 = (['A', 'c', 'G', 'T'] : List Char).length ∧
      t.dtype = NpDType.float32 ∧
      (∀ j, j < (['A', 'c', 'G', 'T'] : List Char).length → ∀ r,
        t.entry 0 0 r j =
          if L ((['A', 'c', 'G', 'T'] : List Char).getD j 'N') = some r then 1 else 0) ∧
      (∀ j, j < (['A', 'c', 'G', 'T'] : List Char).length →
        ((List.range 4).map (fun r => t.entry 0 0 r j)).sum = 1)) :=
  ⟨by decide, encode_one_hot_correct ['A', 'c', 'G', 'T'] (by decide)⟩

lemma getOneHotSeqGo_error (chars : List Char) :
    (∃ c ∈ chars, L c = none) →
    ∀ (i : Nat) (t : Tensor4), getOneHotSeqGo chars i t = .error .encodingError := by
  induction chars with
  | nil => rintro ⟨c, hc, -⟩; exact absurd hc (List.not_mem_nil c)
  | cons c cs ih =>
    rintro ⟨d, hd, hdn⟩ i t
    rw [getOneHotSeqGo]
    rcases List.mem_cons.mp hd with rfl | hd2
    · rw [hdn]
    · cases hLc : L c with
      | none => rfl
      | some r => exact ih ⟨d, hd2, hdn⟩ (i + 1) _

/-- C8: encoding a record that contains any character outside the
case-insensitive A, C, G, T domain fails with the encoding error. -/
theorem encode_invalid_char_error (seq : List Char)
    (h : ∃ c ∈ seq, c ∉ (['A', 'a', 'C', 'c', 'G', 'g', 'T', 't'] : List Char)) :
    getOneHotSeq seq = .error .encodingError := by
  obtain ⟨c, hc, hcd⟩ := h
  exact getOneHotSeqGo_error seq ⟨c, hc, L_eq_none_of_not_mem c hcd⟩ 0 _

theorem encode_invalid_char_error_witness :
    (∃ c ∈ (['A', 'N', 'T'] : List Char),
      c ∉ (['A', 'a', 'C', 'c', 'G', 'g', 'T', 't'] : List Char)) ∧
    getOneHotSeq ['A', 'N', 'T'] = .error .encodingError :=
  ⟨by decide, encode_invalid_char_error ['A', 'N', 'T'] (by decide)⟩

/-- C5: on the eight accepted characters the alphabet map is defined, takes
values in the first four naturals, and is case-insensitive; every other
character, N included, is outside its domain. -/
theorem alphabet_mapping_domain (c : Char) :
    (c ∈ (['A', 'a', 'C', 'c', 'G', 'g', 'T', 't'] : List Char) →
      ∃ k, L c = some k ∧ k ≤ 3 ∧ L c = L c.toUpper) ∧
    (c ∉ (['A', 'a', 'C', 'c', 'G', 'g', 'T', 't'] : List Char) → L c = none) := by
  constructor
  · intro h
    fin_cases h
    · exact ⟨0, by decide, by decide, by decide⟩
    · exact ⟨0, by decide, by decide, by decide⟩
    · exact ⟨1, by decide, by decide, by decide⟩
    · exact ⟨1, by decide, by decide, by decide⟩
    · exact ⟨2, by decide, by decide, by decide⟩
    · exact ⟨2, by decide, by decide, by decide⟩
    · exact ⟨3, by decide, by decide, by decide⟩
    · exact ⟨3, by decide, by decide, by decide⟩
  · exact L_eq_none_of_not_mem c

theorem alphabet_mapping_domain_witness :
    (∃ k, L 'a' = some k ∧ k ≤ 3 ∧ L 'a' = L 'a'.toUpper) ∧ L 'N' = none :=
  ⟨(alphabet_mapping_domain 'a').1 (by decide),
   (alphabet_mapping_domain 'N').2 (by decide)⟩

lemma argmax_onehot (k : Nat) (hk : k < 4) :
    argmaxList [if k = 0 then 1 else 0, if k = 1 then 1 else 0,
      if k = 2 then 1 else 0, if k = 3 then 1 else 0] = k := by
  interval_cases k <;> decide

/-- C4: encoding a nonempty record composed solely of uppercase A, C, G, T
and then decoding with argmax along the alphabet axis reproduces the
original record. -/
theorem encode_decode_roundtrip (seq : List Char) (h1 : 1 ≤ seq.length)
    (h2 : ∀ c ∈ seq, c ∈ (['A', 'C', 'G', 'T'] : List Char)) :
    ∃ t, getOneHotSeq seq = .ok t ∧ decodeOneHot t = seq := by
  have hv : ∀ c ∈ seq, (L c).isSome := by
    intro c hc
    rcases (by simpa using h2 c hc : c = 'A' ∨ c = 'C' ∨ c = 'G' ∨ c = 'T') with
      rfl | rfl | rfl | rfl <;> decide
  obtain ⟨t, ht, hs0, hs1, hs2, hs3, hdt, hent⟩ := getOneHotSeq_spec seq hv
  refine ⟨t, ht, ?_⟩
  unfold decodeOneHot
  rw [hs3]
  apply List.ext_getElem
  · simp
  · intro j hj1 hj2
    have hjlen : j < seq.length := by simpa using hj1
    simp only [List.getElem_map, List.getElem_range]
    have hcol : columnVals t j =
        [t.entry 0 0 0 j, t.entry 0 0 1 j, t.entry 0 0 2 j, t.entry 0 0 3 j] := by
      unfold columnVals
      rw [hs2, show (List.range 4) = [0, 1, 2, 3] from by decide]
      rfl
    obtain ⟨k, hk, hk4, hval⟩ := getOneHotSeq_col seq hv t ht j hjlen
    rw [hcol, hval 0, hval 1, hval 2, hval 3, argmax_onehot k hk4]
    have hgd : seq.getD j 'N' = seq[j] := List.getD_eq_getElem seq 'N' hjlen
    rw [hgd] at hk
    have hc4 : seq[j] ∈ (['A', 'C', 'G', 'T'] : List Char) := h2 _ (List.getElem_mem hjlen)
    rcases (by simpa using hc4 : seq[j] = 'A' ∨ seq[j] = 'C' ∨ seq[j] = 'G' ∨ seq[j] = 'T') with
      hcase | hcase | hcase | hcase <;>
      rw [hcase] at hk ⊢
    · rw [show L 'A' = some 0 from by decide] at hk
      injection hk with hk
      rw [← hk]
      decide
    · rw [show L 'C' = some 1 from by decide] at hk
      injection hk with hk
      rw [← hk]
      decide
    · rw [show L 'G' = some 2 from by decide] at hk
      injection hk with hk
      rw [← hk]
      decide
    · rw [show L 'T' = some 3 from by decide] at hk
      injection hk with hk
      rw [← hk]
      decide

theorem encode_decode_roundtrip_witness :
    1 ≤ (['G', 'A', 'T', 'T', 'A', 'C', 'A'] : List Char).length ∧
    (∀ c ∈ (['G', 'A', 'T', 'T', 'A', 'C', 'A'] : List Char),
      c ∈ (['A', 'C', 'G', 'T'] : List Char)) ∧
    (∃ t, getOneHotSeq ['G', 'A', 'T', 'T', 'A', 'C', 'A'] = .ok t ∧
      decodeOneHot t = ['G', 'A', 'T', 'T', 'A', 'C', 'A']) :=
  ⟨by decide, by decide,
   encode_decode_roundtrip ['G', 'A', 'T', 'T', 'A', 'C', 'A'] (by decide) (by decide)⟩

/-- C3: loading skips every record containing the ambiguity letter N in
either case, keeps the accepted records in file order (the result is a
sublist of the input), and keeps every record of an N-free file, so the
result then has the length of the input. -/
theorem readSeqs_skips_N (fileRecords : List (List Char)) :
    (∀ s ∈ readSeqsFromFasta fileRecords, containsN s = false) ∧
    (∀ s ∈ fileRecords, containsN s = true → s ∉ readSeqsFromFasta fileRecords) ∧
    (readSeqsFromFasta fileRecords).Sublist fileRecords ∧
    ((∀ s ∈ fileRecords, containsN s = false) →
      readSeqsFromFasta fileRecords = fileRecords ∧
      (readSeqsFromFasta fileRecords).length = fileRecords.length) := by
  refine ⟨?_, ?_, ?_, ?_⟩
  · intro s hs
    have h2 := (List.mem_filter.mp hs).2
    simpa using h2
  · intro s hs hN hmem
    have h2 := (List.mem_filter.mp hmem).2
    simp [hN] at h2
  · exact List.filter_sublist _
  · intro h
    have he : readSeqsFromFasta fileRecords = fileRecords := by
      apply List.filter_eq_self.mpr
      intro s hs
      simp [h s hs]
    exact ⟨he, by rw [he]⟩

theorem readSeqs_skips_N_witness :
    (∀ s ∈ readSeqsFromFasta [['A', 'N'], ['a', 'c'], ['n'], ['G']], containsN s = false) ∧
    (∀ s ∈ ([['A', 'N'], ['a', 'c'], ['n'], ['G']] : List (List Char)),
      containsN s = true → s ∉ readSeqsFromFasta [['A', 'N'], ['a', 'c'], ['n'], ['G']]) ∧
    (readSeqsFromFasta [['A', 'N'], ['a', 'c'], ['n'], ['G']]).Sublist
      [['A', 'N'], ['a', 'c'], ['n'], ['G']] ∧
    ((∀ s ∈ ([['A', 'N'], ['a', 'c'], ['n'], ['G']] : List (List Char)), containsN s = false) →
      readSeqsFromFasta [['A', 'N'], ['a', 'c'], ['n'], ['G']] = [['A', 'N'], ['a', 'c'], ['n'], ['G']] ∧
      (readSeqsFromFasta [['A', 'N'], ['a', 'c'], ['n'], ['G']]).length
        = ([['A', 'N'], ['a', 'c'], ['n'], ['G']] : List (List Char)).length) :=
  readSeqs_skips_N [['A', 'N'], ['a', 'c'], ['n'], ['G']]

/-! Helper lemmas about splitting paths on dots. -/

lemma splitOnDot_cons (c : Char) (cs : List Char) :
    splitOnDot (c :: cs) =
      match splitOnDot cs with
      | [] => if c = '.' then [[], []] else [[c]]
      | g :: gs => if c = '.' then [] :: g :: gs else (c :: g) :: gs := rfl

lemma joinDot_single (g : List Char) : joinDot [g] = g := rfl

lemma joinDot_cons2 (g g2 : List Char) (gs : List (List Char)) :
    joinDot (g :: g2 :: gs) = g ++ '.' :: joinDot (g2 :: gs) := rfl

lemma splitOnDot_ne_nil (s : List Char) : splitOnDot s ≠ [] := by
  cases s with
  | nil => simp [splitOnDot]
  | cons c cs =>
    rw [splitOnDot_cons]
    cases h : splitOnDot cs with
    | nil => split_ifs <;> simp
    | cons g gs => split_ifs <;> simp

lemma splitOnDot_append_dot (xs ys : List Char) :
    splitOnDot (xs ++ '.' :: ys) = splitOnDot xs ++ splitOnDot ys := by
  induction xs with
  | nil =>
    rw [List.nil_append, splitOnDot_cons]
    cases h : splitOnDot ys with
    | nil => exact absurd h (splitOnDot_ne_nil ys)
    | cons g gs =>
      show (if '.' = '.' then [] :: g :: gs else _) = splitOnDot [] ++ g :: gs
      rw [if_pos rfl]
      rfl
  | cons c cs ih =>
    rw [List.cons_append, splitOnDot_cons, ih, splitOnDot_cons]
    cases h : splitOnDot cs with
    | nil => exact absurd h (splitOnDot_ne_nil cs)
    | cons g gs =>
      show (match (g :: gs) ++ splitOnDot ys with
        | [] => if c = '.' then [[], []] else [[c]]
        | g :: gs => if c = '.' then [] :: g :: gs else (c :: g) :: gs) =
        (if c = '.' then [] :: g :: gs else (c :: g) :: gs) ++ splitOnDot ys
      rw [List.cons_append]
      split_ifs <;> simp

lemma splitOnDot_no_dot (s : List Char) (h : '.' ∉ s) : splitOnDot s = [s] := by
  induction s with
  | nil => rfl
  | cons c cs ih =>
    have hc : ¬c = '.' := fun hx => h (by rw [hx]; exact List.mem_cons_self _ _)
    rw [splitOnDot_cons, ih (fun hx => h (List.mem_cons_of_mem c hx))]
    show (if c = '.' then [] :: cs :: [] else (c :: cs) :: []) = [c :: cs]
    rw [if_neg hc]

lemma joinDot_splitOnDot (s : List Char) : joinDot (splitOnDot s) = s := by
  induction s with
  | nil => rfl
  | cons c cs ih =>
    rw [splitOnDot_cons]
    cases h : splitOnDot cs with
    | nil => exact absurd h (splitOnDot_ne_nil cs)
    | cons g gs =>
      rw [h] at ih
      show joinDot (if c = '.' then [] :: g :: gs else (c :: g) :: gs) = c :: cs
      split_ifs with hc
      · subst hc
        rw [joinDot_cons2, ih]
        rfl
      · cases gs with
        | nil =>
          rw [joinDot_single] at ih
          rw [joinDot_single, ih]
        | cons g2 gs2 =>
          rw [joinDot_cons2] at ih
          rw [joinDot_cons2, List.cons_append, ih]

/-! Projection lemmas for the split model. -/

lemma splitTrainingTest_itest (filename : List Char) (fileRecords : List (List Char))
    (ratio : ℚ) (numTop : Option Nat) (randomize : Bool) (randPerm : List Nat) :
    (splitTrainingTest filename fileRecords ratio numTop randomize randPerm).itest =
      (splitPermut (splitSeqs fileRecords numTop).length randomize randPerm).take
        (splitNtest (splitSeqs fileRecords numTop).length ratio) := rfl

lemma splitTrainingTest_itrain (filename : List Char) (fileRecords : List (List Char))
    (ratio : ℚ) (numTop : Option Nat) (randomize : Bool) (randPerm : List Nat) :
    (splitTrainingTest filename fileRecords ratio numTop randomize randPerm).itrain =
      (splitPermut (splitSeqs fileRecords numTop).length randomize randPerm).drop
        (splitNtest (splitSeqs fileRecords numTop).length ratio) := rfl

lemma splitTrainingTest_trseq (filename : List Char) (fileRecords : List (List Char))
    (ratio : ℚ) (numTop : Option Nat) (randomize : Bool) (randPerm : List Nat) :
    (splitTrainingTest filename fileRecords ratio numTop randomize randPerm).trseq =
      (splitTrainingTest filename fileRecords ratio numTop randomize randPerm).itrain.map
        (fun i => (splitSeqs fileRecords numTop).getD i []) := rfl

lemma splitTrainingTest_teseq (filename : List Char) (fileRecords : List (List Char))
    (ratio : ℚ) (numTop : Option Nat) (randomize : Bool) (randPerm : List Nat) :
    (splitTrainingTest filename fileRecords ratio numTop randomize randPerm).teseq =
      (splitTrainingTest filename fileRecords ratio numTop randomize randPerm).itest.map
        (fun i => (splitSeqs fileRecords numTop).getD i []) := rfl

/-- C9: the two output paths are the input path with its last dot-segment
dropped and the train or test suffix appended; in particular a path of the
form name.ext with a dot-free extension produces name_train.fa and
name_test.fa, whatever dots name itself contains. -/
theorem split_output_filenames (name ext : List Char) (fileRecords : List (List Char))
    (ratio : ℚ) (numTop : Option Nat) (randomize : Bool) (randPerm : List Nat)
    (hext : '.' ∉ ext) :
    (splitTrainingTest (name ++ '.' :: ext) fileRecords ratio numTop randomize randPerm).trfilename
      = name ++ ("_train.fa").data ∧
    (splitTrainingTest (name ++ '.' :: ext) fileRecords ratio numTop randomize randPerm).tefilename
      = name ++ ("_test.fa").data ∧
    (∀ s : List Char,
      (splitTrainingTest s fileRecords ratio numTop randomize randPerm).trfilename
        = joinDot (splitOnDot s).dropLast ++ ("_train.fa").data ∧
      (splitTrainingTest s fileRecords ratio numTop randomize randPerm).tefilename
        = joinDot (splitOnDot s).dropLast ++ ("_test.fa").data) := by
  have hsplit : splitOnDot (name ++ '.' :: ext) = splitOnDot name ++ [ext] := by
    rw [splitOnDot_append_dot, splitOnDot_no_dot ext hext]
  constructor
  · show trainFilename (name ++ '.' :: ext) = name ++ ("_train.fa").data
    unfold trainFilename
    rw [hsplit, List.dropLast_concat, joinDot_splitOnDot]
  constructor
  · show testFilename (name ++ '.' :: ext) = name ++ ("_test.fa").data
    unfold testFilename
    rw [hsplit, List.dropLast_concat, joinDot_splitOnDot]
  · exact fun s => ⟨rfl, rfl⟩

theorem split_output_filenames_witness :
    ('.' ∉ ("oct4").data) ∧
    (splitTrainingTest (("oct4").data ++ '.' :: ("fa").data) [] (1/2) none true []).trfilename
      = ("oct4").data ++ ("_train.fa").data ∧
    (splitTrainingTest (("oct4").data ++ '.' :: ("fa").data) [] (1/2) none true []).tefilename
      = ("oct4").data ++ ("_test.fa").data :=
  ⟨by decide,
   (split_output_filenames ("oct4").data ("fa").data [] (1/2) none true [] (by decide)).1,
   (split_output_filenames ("oct4").data ("fa").data [] (1/2) none true [] (by decide)).2.1⟩

/-! Helper lemmas about the split model. -/

lemma splitPermut_perm (n : Nat) (randomize : Bool) (randPerm : List Nat)
    (hperm : randPerm.Perm (List.range n)) :
    (splitPermut n randomize randPerm).Perm (List.range n) := by
  unfold splitPermut
  split_ifs
  · exact hperm
  · exact List.Perm.refl _

lemma map_getD_range (l : List (List Char)) :
    (List.range l.length).map (fun i => l.getD i []) = l := by
  apply List.ext_getElem
  · simp
  · intro j h1 h2
    simp only [List.getElem_map, List.getElem_range]
    exact List.getD_eq_getElem l [] h2

lemma splitNtest_le (n : Nat) (ratio : ℚ) (h0 : 0 ≤ ratio) (h1 : ratio ≤ 1) :
    splitNtest n ratio ≤ n := by
  unfold splitNtest pyInt
  have hnn : (0 : ℚ) ≤ (n : ℚ) * ratio := mul_nonneg (by positivity) h0
  rw [if_pos hnn, Int.toNat_le]
  calc ⌊(n : ℚ) * ratio⌋ ≤ ⌊(n : ℚ)⌋ := Int.floor_le_floor (by nlinarith)
    _ = (n : Int) := Int.floor_natCast n

lemma take_drop_partition (p : List Nat) (n k : Nat) (hp : p.Perm (List.range n)) :
    (∀ i ∈ p.drop k, i ∉ p.take k) ∧
    (∀ i : Nat, (i ∈ p.drop k ∨ i ∈ p.take k) ↔ i < n) := by
  have hnd : p.Nodup := hp.nodup_iff.mpr (List.nodup_range n)
  have h2 : (p.take k ++ p.drop k).Nodup := by
    rw [List.take_append_drop]
    exact hnd
  have hdisj := (List.nodup_append.mp h2).2.2
  have hsplit2 : ∀ x : Nat, x ∈ p ↔ x ∈ p.take k ∨ x ∈ p.drop k := by
    intro x
    conv_lhs => rw [← List.take_append_drop k p]
    exact List.mem_append
  constructor
  · exact fun i hi hit => hdisj hit hi
  · intro i
    rw [or_comm, ← hsplit2, hp.mem_iff, List.mem_range]

/-- C2: with every loaded record used, the test indices are the first
int(len * ratio) entries of the index permutation and the train indices are
the rest; their lengths are the cut point and its complement, the two index
lists are disjoint, and together they cover exactly the indices below the
number of loaded records. -/
theorem split_partition_disjoint_union (filename : List Char)
    (fileRecords : List (List Char)) (ratio : ℚ) (randomize : Bool) (randPerm : List Nat)
    (h0 : 0 ≤ ratio) (h1 : ratio ≤ 1)
    (hperm : randPerm.Perm (List.range (readSeqsFromFasta fileRecords).length)) :
    (splitTrainingTest filename fileRecords ratio none randomize randPerm).itest =
      (splitPermut (readSeqsFromFasta fileRecords).length randomize randPerm).take
        (splitNtest (readSeqsFromFasta fileRecords).length ratio) ∧
    (splitTrainingTest filename fileRecords ratio none randomize randPerm).itrain =
      (splitPermut (readSeqsFromFasta fileRecords).length randomize randPerm).drop
        (splitNtest (readSeqsFromFasta fileRecords).length ratio) ∧
    (splitTrainingTest filename fileRecords ratio none randomize randPerm).itest.length =
      splitNtest (readSeqsFromFasta fileRecords).length ratio ∧
    (splitTrainingTest filename fileRecords ratio none randomize randPerm).itrain.length =
      (readSeqsFromFasta fileRecords).length -
        splitNtest (readSeqsFromFasta fileRecords).length ratio ∧
    (∀ i ∈ (splitTrainingTest filename fileRecords ratio none randomize randPerm).itrain,
      i ∉ (splitTrainingTest filename fileRecords ratio none randomize randPerm).itest) ∧
    (∀ i : Nat,
      (i ∈ (splitTrainingTest filename fileRecords ratio none randomize randPerm).itrain ∨
       i ∈ (splitTrainingTest filename fileRecords ratio none randomize randPerm).itest) ↔
      i < (readSeqsFromFasta fileRecords).length) := by
  have hp : (splitPermut (readSeqsFromFasta fileRecords).length randomize randPerm).Perm
      (List.range (readSeqsFromFasta fileRecords).length) :=
    splitPermut_perm _ randomize randPerm hperm
  have hplen : (splitPermut (readSeqsFromFasta fileRecords).length randomize randPerm).length
      = (readSeqsFromFasta fileRecords).length := by
    simpa using hp.length_eq
  have hkn : splitNtest (readSeqsFromFasta fileRecords).length ratio ≤
      (readSeqsFromFasta fileRecords).length := splitNtest_le _ ratio h0 h1
  obtain ⟨hdisj, hcover⟩ := take_drop_partition
    (splitPermut (readSeqsFromFasta fileRecords).length randomize randPerm)
    (readSeqsFromFasta fileRecords).length
    (splitNtest (readSeqsFromFasta fileRecords).length ratio) hp
  refine ⟨rfl, rfl, ?_, ?_, hdisj, hcover⟩
  · show ((splitPermut (readSeqsFromFasta fileRecords).length randomize randPerm).take
      (splitNtest (readSeqsFromFasta fileRecords).length ratio)).length = _
    rw [List.length_take, hplen]
    exact Nat.min_eq_left hkn
  · show ((splitPermut (readSeqsFromFasta fileRecords).length randomize randPerm).drop
      (splitNtest (readSeqsFromFasta fileRecords).length ratio)).length = _
    rw [List.length_drop, hplen]

theorem split_partition_disjoint_union_witness :
    (0 ≤ (1/5 : ℚ)) ∧ ((1/5 : ℚ) ≤ 1) ∧
    (List.range 10).Perm (List.range (readSeqsFromFasta (List.replicate 10 ['A'])).length) ∧
    (splitTrainingTest ("x.fa").data (List.replicate 10 ['A']) (1/5) none false
      (List.range 10)).itest.length = 2 ∧
    (splitTrainingTest ("x.fa").data (List.replicate 10 ['A']) (1/5) none false
      (List.range 10)).itrain.length = 8 ∧
    (∀ i ∈ (splitTrainingTest ("x.fa").data (List.replicate 10 ['A']) (1/5) none false
        (List.range 10)).itrain,
      i ∉ (splitTrainingTest ("x.fa").data (List.replicate 10 ['A']) (1/5) none false
        (List.range 10)).itest) ∧
    (∀ i : Nat,
      (i ∈ (splitTrainingTest ("x.fa").data (List.replicate 10 ['A']) (1/5) none false
        (List.range 10)).itrain ∨
       i ∈ (splitTrainingTest ("x.fa").data (List.replicate 10 ['A']) (1/5) none false
        (List.range 10)).itest) ↔ i < 10) := by
  have hlen10 : (readSeqsFromFasta (List.replicate 10 ['A'])).length = 10 := by decide
  obtain ⟨-, -, hl1, hl2, hd, hc⟩ := split_partition_disjoint_union ("x.fa").data
    (List.replicate 10 ['A']) (1/5) false (List.range 10) (by norm_num) (by norm_num)
    (by decide)
  have hnt : splitNtest (readSeqsFromFasta (List.replicate 10 ['A'])).length (1/5) = 2 := by
    rw [hlen10]
    norm_num [splitNtest, pyInt]
    decide
  refine ⟨by norm_num, by norm_num, by decide, ?_, ?_, hd, ?_⟩
  · rw [hl1, hnt]
  · rw [hl2, hnt, hlen10]
  · intro i
    rw [hc i, hlen10]

lemma splitTrainingTest_distributes (filename : List Char) (fileRecords : List (List Char))
    (ratio : ℚ) (numTop : Option Nat) (randomize : Bool) (randPerm : List Nat)
    (hperm : randPerm.Perm (List.range (splitSeqs fileRecords numTop).length)) :
    ((splitTrainingTest filename fileRecords ratio numTop randomize randPerm).teseq ++
     (splitTrainingTest filename fileRecords ratio numTop randomize randPerm).trseq).Perm
      (splitSeqs fileRecords numTop) := by
  have hp : (splitPermut (splitSeqs fileRecords numTop).length randomize randPerm).Perm
      (List.range (splitSeqs fileRecords numTop).length) :=
    splitPermut_perm _ randomize randPerm hperm
  have key : (splitTrainingTest filename fileRecords ratio numTop randomize randPerm).teseq ++
      (splitTrainingTest filename fileRecords ratio numTop randomize randPerm).trseq =
      (splitPermut (splitSeqs fileRecords numTop).length randomize randPerm).map
        (fun i => (splitSeqs fileRecords numTop).getD i []) := by
    rw [splitTrainingTest_teseq, splitTrainingTest_trseq, splitTrainingTest_itest,
      splitTrainingTest_itrain, ← List.map_append, List.take_append_drop]
  rw [key]
  have hmap := hp.map (fun i => (splitSeqs fileRecords numTop).getD i [])
  rw [map_getD_range] at hmap
  exact hmap

/-- C6: when num_top_regions is 5, splitTrainingTest works on exactly the
first five loaded records, whatever the randomize flag: the written train
and test record lists together are a permutation of those five records, and
every written record is one of them. -/
theorem split_topN_truncates_before_shuffle (filename : List Char)
    (fileRecords : List (List Char)) (ratio : ℚ) (randomize : Bool) (randPerm : List Nat)
    (hlen : (readSeqsFromFasta fileRecords).length = 10)
    (hperm : randPerm.Perm (List.range (splitSeqs fileRecords (some 5)).length)) :
    splitSeqs fileRecords (some 5) = (readSeqsFromFasta fileRecords).take 5 ∧
    ((splitTrainingTest filename fileRecords ratio (some 5) randomize randPerm).teseq ++
     (splitTrainingTest filename fileRecords ratio (some 5) randomize randPerm).trseq).Perm
      ((readSeqsFromFasta fileRecords).take 5) ∧
    (∀ s ∈ (splitTrainingTest filename fileRecords ratio (some 5) randomize randPerm).trseq,
      s ∈ (readSeqsFromFasta fileRecords).take 5) ∧
    (∀ s ∈ (splitTrainingTest filename fileRecords ratio (some 5) randomize randPerm).teseq,
      s ∈ (readSeqsFromFasta fileRecords).take 5) := by
  have hseqs : splitSeqs fileRecords (some 5) = (readSeqsFromFasta fileRecords).take 5 := rfl
  have hperm2 := splitTrainingTest_distributes filename fileRecords ratio (some 5)
    randomize randPerm hperm
  rw [hseqs] at hperm2
  refine ⟨hseqs, hperm2, ?_, ?_⟩
  · intro s hs
    exact hperm2.subset (List.mem_append.mpr (Or.inr hs))
  · intro s hs
    exact hperm2.subset (List.mem_append.mpr (Or.inl hs))

theorem split_topN_truncates_before_shuffle_witness :
    (readSeqsFromFasta [['A'], ['C'], ['G'], ['T'], ['a'], ['c'], ['g'], ['t'], ['A', 'A'],
      ['C', 'C']]).length = 10 ∧
    (List.range 5).Perm (List.range (splitSeqs [['A'], ['C'], ['G'], ['T'], ['a'], ['c'],
      ['g'], ['t'], ['A', 'A'], ['C', 'C']] (some 5)).length) ∧
    ((splitTrainingTest ("x.fa").data [['A'], ['C'], ['G'], ['T'], ['a'], ['c'], ['g'], ['t'],
        ['A', 'A'], ['C', 'C']] (1/5) (some 5) true (List.range 5)).teseq ++
     (splitTrainingTest ("x.fa").data [['A'], ['C'], ['G'], ['T'], ['a'], ['c'], ['g'], ['t'],
        ['A', 'A'], ['C', 'C']] (1/5) (some 5) true (List.range 5)).trseq).Perm
      ((readSeqsFromFasta [['A'], ['C'], ['G'], ['T'], ['a'], ['c'], ['g'], ['t'], ['A', 'A'],
        ['C', 'C']]).take 5) :=
  ⟨by decide, by decide,
   (split_topN_truncates_before_shuffle ("x.fa").data
     [['A'], ['C'], ['G'], ['T'], ['a'], ['c'], ['g'], ['t'], ['A', 'A'], ['C', 'C']]
     (1/5) true (List.range 5) (by decide) (by decide)).2.1⟩

/-- C10: num_top_regions equal to 0 is falsy exactly like the default None,
so no truncation happens: the split output is identical to the output with
the default argument, and all loaded records are distributed between the
train and test lists. -/
theorem split_topN_zero_no_truncation (filename : List Char)
    (fileRecords : List (List Char)) (ratio : ℚ) (randomize : Bool) (randPerm : List Nat)
    (hperm : randPerm.Perm (List.range (readSeqsFromFasta fileRecords).length)) :
    splitTrainingTest filename fileRecords ratio (some 0) randomize randPerm =
      splitTrainingTest filename fileRecords ratio none randomize randPerm ∧
    ((splitTrainingTest filename fileRecords ratio (some 0) randomize randPerm).teseq ++
     (splitTrainingTest filename fileRecords ratio (some 0) randomize randPerm).trseq).Perm
      (readSeqsFromFasta fileRecords) :=
  ⟨rfl, splitTrainingTest_distributes filename fileRecords ratio (some 0) randomize
    randPerm hperm⟩

theorem split_topN_zero_no_truncation_witness :
    ([2, 0, 1] : List Nat).Perm
      (List.range (readSeqsFromFasta [['A'], ['C'], ['G']]).length) ∧
    splitTrainingTest ("x.fa").data [['A'], ['C'], ['G']] (1/3) (some 0) true [2, 0, 1] =
      splitTrainingTest ("x.fa").data [['A'], ['C'], ['G']] (1/3) none true [2, 0, 1] ∧
    ((splitTrainingTest ("x.fa").data [['A'], ['C'], ['G']] (1/3) (some 0) true
        [2, 0, 1]).teseq ++
     (splitTrainingTest ("x.fa").data [['A'], ['C'], ['G']] (1/3) (some 0) true
        [2, 0, 1]).trseq).Perm (readSeqsFromFasta [['A'], ['C'], ['G']]) :=
  ⟨by decide,
   (split_topN_zero_no_truncation ("x.fa").data [['A'], ['C'], ['G']] (1/3) true [2, 0, 1]
     (by decide)).1,
   (split_topN_zero_no_truncation ("x.fa").data [['A'], ['C'], ['G']] (1/3) true [2, 0, 1]
     (by decide)).2⟩

lemma mem_getD_index (l : List (List Char)) (a : List Char) (h : a ∈ l) :
    ∃ i, i < l.length ∧ l.getD i [] = a := by
  obtain ⟨⟨i, hi⟩, hget⟩ := List.mem_iff_get.mp h
  refine ⟨i, hi, ?_⟩
  rw [List.getD_eq_getElem l [] hi]
  rw [List.get_eq_getElem] at hget
  exact hget

lemma encodeAll_ok (seqs : List (List Char)) :
    (∀ s ∈ seqs, ∀ c ∈ s, (L c).isSome) →
    ∃ ts, encodeAll seqs = .ok ts ∧ ts.length = seqs.length ∧
      ∀ j, j < seqs.length →
        (ts.getD j (npZeros4 0 0 0 0 NpDType.float32)).shape1 = 1 ∧
        (ts.getD j (npZeros4 0 0 0 0 NpDType.float32)).shape2 = 4 ∧
        (ts.getD j (npZeros4 0 0 0 0 NpDType.float32)).shape3 = (seqs.getD j []).length := by
  induction seqs with
  | nil => exact fun _ => ⟨[], rfl, rfl, fun j hj => absurd hj (by simp)⟩
  | cons s ss ih =>
    intro h
    obtain ⟨t, ht, hs0, hs1, hs2, hs3, -, -⟩ := getOneHotSeq_spec s (h s (by simp))
    obtain ⟨ts, hts, hlen, hj⟩ := ih (fun x hx => h x (by simp [hx]))
    refine ⟨t :: ts, ?_, by simp [hlen], ?_⟩
    · rw [encodeAll, ht, hts]
    · intro j hjlt
      cases j with
      | zero => exact ⟨hs1, hs2, by simpa using hs3⟩
      | succ j2 =>
        simp only [List.getD_cons_succ]
        exact hj j2 (by simpa using hjlt)

/-- C7: batch-encoding a record list whose members do not all share one
length fails with the shape-mismatch error instead of returning a tensor
(stated for lists of records inside the alphabet domain, so that the
encoding loop itself does not fail first). -/
theorem encodeBatch_unequal_lengths_error (seqs : List (List Char))
    (hvalid : ∀ s ∈ seqs, ∀ c ∈ s, (L c).isSome)
    (hmix : ∃ s1 ∈ seqs, ∃ s2 ∈ seqs, s1.length ≠ s2.length) :
    seqToOneHot seqs = .error .shapeMismatch := by
  cases seqs with
  | nil =>
    obtain ⟨s1, hs1, -⟩ := hmix
    exact absurd hs1 (List.not_mem_nil s1)
  | cons s0 ss =>
    obtain ⟨ts, hts, hlen, hshape⟩ := encodeAll_ok (s0 :: ss) hvalid
    cases ts with
    | nil => simp at hlen
    | cons t0 ts2 =>
      obtain ⟨s1, hs1, s2, hs2, hne⟩ := hmix
      have hd : ∃ d ∈ s0 :: ss, d.length ≠ s0.length := by
        by_cases hcase : s1.length = s0.length
        · exact ⟨s2, hs2, fun hx => hne (by rw [hcase, hx])⟩
        · exact ⟨s1, hs1, hcase⟩
      obtain ⟨d, hdmem, hdne⟩ := hd
      have hdss : d ∈ ss := by
        rcases List.mem_cons.mp hdmem with rfl | h2
        · exact absurd rfl hdne
        · exact h2
      obtain ⟨i, hilt, hieq⟩ := mem_getD_index ss d hdss
      have hlen2 : ts2.length = ss.length := by simpa using hlen
      have ht0 : t0.shape3 = s0.length := by
        have h0 := hshape 0 (by simp)
        simpa using h0.2.2
      have hui : (ts2.getD i (npZeros4 0 0 0 0 NpDType.float32)).shape3 = d.length := by
        have hi := hshape (i + 1) (by simp; omega)
        rw [List.getD_cons_succ, List.getD_cons_succ, hieq] at hi
        exact hi.2.2
      have humem : ts2.getD i (npZeros4 0 0 0 0 NpDType.float32) ∈ ts2 := by
        have hilt2 : i < ts2.length := by omega
        rw [List.getD_eq_getElem ts2 _ hilt2]
        exact List.getElem_mem hilt2
      have hall : ts2.all
          (fun u => u.shape1 == t0.shape1 && u.shape2 == t0.shape2 && u.shape3 == t0.shape3)
          = false := by
        cases hcase : ts2.all
          (fun u => u.shape1 == t0.shape1 && u.shape2 == t0.shape2 && u.shape3 == t0.shape3) with
        | false => rfl
        | true =>
          exfalso
          have hu := List.all_eq_true.mp hcase _ humem
          have hu3 : (ts2.getD i (npZeros4 0 0 0 0 NpDType.float32)).shape3 = t0.shape3 := by
            simp only [Bool.and_eq_true, beq_iff_eq] at hu
            exact hu.2
          rw [hui, ht0] at hu3
          exact hdne hu3
      show (match encodeAll (s0 :: ss) with
        | .error e => .error e
        | .ok ts => npConcatAxis0 ts) = Except.error EncErr.shapeMismatch
      rw [hts]
      show npConcatAxis0 (t0 :: ts2) = Except.error EncErr.shapeMismatch
      rw [npConcatAxis0, hall]
      rfl

theorem encodeBatch_unequal_lengths_error_witness :
    (∀ s ∈ ([['A'], ['A', 'C']] : List (List Char)), ∀ c ∈ s, (L c).isSome) ∧
    (∃ s1 ∈ ([['A'], ['A', 'C']] : List (List Char)),
      ∃ s2 ∈ ([['A'], ['A', 'C']] : List (List Char)), s1.length ≠ s2.length) ∧
    seqToOneHot [['A'], ['A', 'C']] = .error .shapeMismatch :=
  ⟨by decide, by decide,
   encodeBatch_unequal_lengths_error [['A'], ['A', 'C']] (by decide) (by decide)⟩
